import Mathlib

/-!
Verification of the `lucid` sleep utility (src/main.rs).

Shallow embedding of the core of `lucid`, a configurable process-sleep
utility, together with proofs about its specified behaviour.

Modelling conventions:

* Rust `f64` values are modelled by the inductive `Lucid.F64`: a finite
  value is carried as its exact rational value (`ℚ`), and the special
  values `-0.0`, `+inf`, `-inf` and `NaN` are separate constructors.
  The IEEE-754 comparison, floor, round, subtraction and multiplication
  semantics on special values are modelled exactly; arithmetic on finite
  values is modelled by exact rational arithmetic (the rounding of each
  individual `f64` operation to 53-bit precision is not modelled — all
  concrete inputs used in witnesses and counterexamples below are chosen
  at points where the `f64` computation is exact, so model and machine
  agree there).
* Rust `u64` casts (`as u64`) are modelled with their documented
  saturating semantics (negative → 0, too large → `2^64 - 1`, NaN → 0),
  and `u64` arithmetic overflow with the release-profile wrap-around, i.e. an explicit `% 2^64`.
* `std::time::Duration` is modelled as a pair of second/nanosecond
  counters, exactly as the Rust structure stores them.
* The main loop (src/main.rs lines 252-288) is modelled as a fuel-indexed
  transition function over the elapsed time in milliseconds.  Real time
  is idealised: each `thread::sleep(d)` advances the elapsed clock by
  exactly `d`.  The asynchronous signal handler is modelled by a delivery
  schedule `sig : ℕ → Bool`, where `sig k = true` means that a
  SIGINT/SIGTERM was delivered (and hence the shared `AtomicBool` latch
  was stored `false`) between the latch read of cycle `k - 1` and the
  latch read of cycle `k`.
* Messages printed by `output.print` / `output.print_verbose` inside the
  loop are modelled as an emitted list of `Lucid.Event`s (verbosity
  filtering, the message prefix and the stdout/stderr channel selection
  do not affect any claim below and are not modelled).
* The external collaborators (the clap CLI parser, `nix::unistd::daemon`,
  `ctrlc::set_handler`) are modelled by their outcomes: the argument
  strings reaching `run`, and boolean success flags for daemonization and
  signal-handler registration.  The Rust functions `f64::from_str` and
  `i32::from_str` are modelled from their documented grammar and semantics.
-/

namespace Lucid

/-- The error enumeration of src/main.rs lines 15-20. -/
inductive LucidError where
  | DurationParseError
  | DurationNegative
  | FailedToDaemonize
deriving DecidableEq, Repr

/-- `LucidError::message` from src/main.rs lines 22-30 (the `\x27` escapes
are plain apostrophes). -/
def LucidError.message : LucidError → String
  | .DurationParseError => "Could not parse \x27duration\x27 argument"
  | .DurationNegative => "Duration can not be negative"
  | .FailedToDaemonize => "Failed to daemonize itself"

/-- `std::time::Duration`: whole seconds plus sub-second nanoseconds. -/
structure Duration where
  secs : ℕ
  nanos : ℕ
deriving DecidableEq, Repr

/-- `Duration::from_millis`: seconds are the millisecond count divided by
1000, the remainder becomes nanoseconds. -/
def Duration.from_millis (millis : ℕ) : Duration :=
  ⟨millis / 1000, millis % 1000 * 1000000⟩

/-- `Duration::as_secs`. -/
def Duration.as_secs (d : Duration) : ℕ := d.secs

/-- `Duration::subsec_millis`. -/
def Duration.subsec_millis (d : Duration) : ℕ := d.nanos / 1000000

/-- The total number of milliseconds a `Duration` denotes (helper used to
state claims; not a Rust method of its own). -/
def Duration.total_millis (d : Duration) : ℕ :=
  d.secs * 1000 + Duration.subsec_millis d

/-- Zero-pad a number below 1000 to three digits, as the Rust format
specifier for the millisecond field of `duration_as_str` does. -/
def pad3 (n : ℕ) : String :=
  (if n < 10 then "00" else if n < 100 then "0" else "") ++ Nat.repr n

/-- `duration_as_str` from src/main.rs lines 92-94: whole seconds, a dot,
the zero-padded three-digit millisecond part, and the unit suffix. -/
def duration_as_str (d : Duration) : String :=
  Nat.repr (Duration.as_secs d) ++ "." ++ pad3 (Duration.subsec_millis d) ++ "s"

/-- The exact numeric value (in seconds) denoted by `duration_as_str d`
with its trailing unit `s` removed: whole seconds plus thousandths. -/
def duration_str_val (d : Duration) : ℚ :=
  (Duration.as_secs d : ℚ) + (Duration.subsec_millis d : ℚ) / 1000

/-- Round half away from zero on an exact rational, the rounding mode of
Rust `f64::round`. -/
def roundAway (q : ℚ) : ℤ :=
  if q < 0 then -⌊-q + 1/2⌋ else ⌊q + 1/2⌋

/-- Model of Rust `f64`: finite values by their exact rational value,
and the IEEE special values `-0.0`, `+inf`, `-inf`, `NaN` as separate
constructors (`.finite 0` is `+0.0`). -/
inductive F64 where
  | finite (val : ℚ)
  | negZero
  | inf
  | negInf
  | nan
deriving DecidableEq, Repr

/-- IEEE-754 `<` on doubles: `NaN` compares false with everything, the
two zeros are equal, infinities compare as expected. -/
def F64.lt : F64 → F64 → Bool
  | .nan, _ => false
  | _, .nan => false
  | .finite p, .finite q => decide (p < q)
  | .finite p, .negZero => decide (p < 0)
  | .negZero, .finite q => decide (0 < q)
  | .negZero, .negZero => false
  | .inf, .inf => false
  | .inf, _ => false
  | _, .inf => true
  | .negInf, .negInf => false
  | .negInf, _ => true
  | _, .negInf => false

/-- `f64::floor`: exact on finite values, identity on `-0.0`, `±inf`
and `NaN`. -/
def F64.floor : F64 → F64
  | .finite q => .finite ⌊q⌋
  | .negZero => .negZero
  | .inf => .inf
  | .negInf => .negInf
  | .nan => .nan

/-- The Rust cast `as u64` on an `f64`: truncation toward zero with
saturation at the `u64` range boundaries, and `NaN` cast to `0`
(documented Rust cast semantics). -/
def F64.toU64 : F64 → ℕ
  | .finite q => (max 0 (min ⌊q⌋ (2^64 - 1))).toNat
  | .negZero => 0
  | .inf => 2^64 - 1
  | .negInf => 0
  | .nan => 0

/-- The Rust cast `as f64` on a `u64`: modelled exactly (the rounding to
the nearest double for arguments above `2^53` is not modelled; see the
file header). -/
def F64.ofNat (n : ℕ) : F64 := .finite n

/-- IEEE-754 subtraction on doubles (round-to-nearest): exact on finite
operands, with the standard special-value and signed-zero rules
(`x - x = +0.0` for finite `x`; `-0.0 - 0.0 = -0.0`). -/
def F64.sub : F64 → F64 → F64
  | .nan, _ => .nan
  | _, .nan => .nan
  | .inf, .inf => .nan
  | .inf, _ => .inf
  | .negInf, .negInf => .nan
  | .negInf, _ => .negInf
  | _, .inf => .negInf
  | _, .negInf => .inf
  | .negZero, .negZero => .finite 0
  | .negZero, .finite q => if q = 0 then .negZero else .finite (-q)
  | .finite p, .negZero => .finite p
  | .finite p, .finite q => .finite (p - q)

/-- IEEE-754 multiplication on doubles: exact on finite operands, with
the standard special-value rules (`inf * 0` is `NaN`, signed zeros
multiply by sign).  The sign of an exact-zero product of two nonzero
finite operands is not tracked (irrelevant to every call site below). -/
def F64.mul : F64 → F64 → F64
  | .nan, _ => .nan
  | _, .nan => .nan
  | .inf, .inf => .inf
  | .inf, .negInf => .negInf
  | .negInf, .inf => .negInf
  | .negInf, .negInf => .inf
  | .inf, .negZero => .nan
  | .negZero, .inf => .nan
  | .negInf, .negZero => .nan
  | .negZero, .negInf => .nan
  | .inf, .finite q => if 0 < q then .inf else if q < 0 then .negInf else .nan
  | .finite q, .inf => if 0 < q then .inf else if q < 0 then .negInf else .nan
  | .negInf, .finite q => if 0 < q then .negInf else if q < 0 then .inf else .nan
  | .finite q, .negInf => if 0 < q then .negInf else if q < 0 then .inf else .nan
  | .negZero, .negZero => .finite 0
  | .negZero, .finite q => if q < 0 then .finite 0 else .negZero
  | .finite q, .negZero => if q < 0 then .finite 0 else .negZero
  | .finite p, .finite q => .finite (p * q)

/-- `f64::round` (half away from zero): exact on finite values, identity
on the special values.  (That `(-0.3).round()` is `-0.0` rather than
`+0.0` is not tracked: every call site immediately casts to `u64`.) -/
def F64.round : F64 → F64
  | .finite q => .finite (roundAway q)
  | .negZero => .negZero
  | .inf => .inf
  | .negInf => .negInf
  | .nan => .nan

/-- `duration_from_float` from src/main.rs lines 96-105, modelled over
`F64`.  The negative check is IEEE `<` (so `-0.0` passes it); the two
`as u64` casts saturate; the final `secs * 1000 + millisecs` is `u64`
arithmetic, i.e. reduced `% 2^64` (release-profile wrap-around). -/
def duration_from_float (duration_sec : F64) : Except LucidError Duration :=
  if F64.lt duration_sec (F64.finite 0) then
    .error LucidError.DurationNegative
  else
    let secs : ℕ := F64.toU64 (F64.floor duration_sec)
    let millisecs : ℕ :=
      F64.toU64 (F64.round (F64.mul (F64.sub duration_sec (F64.ofNat secs)) (F64.finite 1000)))
    .ok (Duration.from_millis ((secs * 1000 + millisecs) % 2^64))

/-- The millisecond count the specification ascribes to a parsed duration:
whole-second part via floor, fractional part via round-half-away-from-zero
on `(value - floor value) * 1000`.  This definition follows the spec text,
to be compared against `duration_from_float` (which follows the source). -/
def spec_millis (q : ℚ) : ℤ :=
  ⌊q⌋ * 1000 + roundAway ((q - ⌊q⌋) * 1000)

/-- Strip one optional leading sign character, returning whether it was a
minus sign together with the remaining characters. -/
def parseSign (l : List Char) : Bool × List Char :=
  match l with
  | '-' :: rest => (true, rest)
  | '+' :: rest => (false, rest)
  | _ => (false, l)

/-- Numeric value of a string of ASCII digits (most significant first). -/
def parseDigits (l : List Char) : ℕ :=
  l.foldl (fun a c => a * 10 + (c.toNat - 48)) 0

/-- Parse the optional exponent digits after the `e`/`E` marker: an
optional sign followed by at least one digit. -/
def parseExpTail (mant : ℚ) (l : List Char) : Option ℚ :=
  match parseSign l with
  | (eneg, l2) =>
    if l2.isEmpty || !(l2.all Char.isDigit) then none
    else
      let n := parseDigits l2
      some (if eneg then mant / 10 ^ n else mant * 10 ^ n)

/-- After the mantissa, a Rust float literal is finished either by the end
of the string or by an exponent part. -/
def parseAfterMant (mant : ℚ) (l : List Char) : Option ℚ :=
  match l with
  | [] => some mant
  | c :: rest => if c == 'e' || c == 'E' then parseExpTail mant rest else none

/-- Parse an unsigned Rust float literal body
`Digit+ | Digit+ . Digit* | Digit* . Digit+`, optionally followed by an
exponent, into its exact rational value. -/
def parseNumber (l : List Char) : Option ℚ :=
  match l.span Char.isDigit with
  | (ip, r1) =>
    match r1 with
    | '.' :: r2 =>
      match r2.span Char.isDigit with
      | (fp, r3) =>
        if ip.isEmpty && fp.isEmpty then none
        else parseAfterMant ((parseDigits ip : ℚ) + (parseDigits fp : ℚ) / 10 ^ fp.length) r3
    | _ =>
      if ip.isEmpty then none
      else parseAfterMant (parseDigits ip : ℚ) r1

/-- Model of the Rust function `f64::from_str` (the `.parse::<f64>()` call on
src/main.rs line 181), from its documented grammar: an optional sign,
then case-insensitively `inf`, `infinity`, `nan`, or a decimal number
with optional exponent.  Finite values are carried exactly (the rounding
of the decimal value to the nearest double is not modelled); a minus sign
on a zero value yields `-0.0`. -/
def rust_parse_f64 (s : String) : Option F64 :=
  match parseSign s.toList with
  | (neg, l) =>
    let low := l.map Char.toLower
    if low = ['i', 'n', 'f'] || low = ['i', 'n', 'f', 'i', 'n', 'i', 't', 'y'] then
      some (if neg then F64.negInf else F64.inf)
    else if low = ['n', 'a', 'n'] then
      some F64.nan
    else
      match parseNumber l with
      | none => none
      | some q => some (if neg then (if q = 0 then F64.negZero else F64.finite (-q)) else F64.finite q)

/-- Model of the Rust function `i32::from_str` (the `.parse::<i32>()` call on
src/main.rs line 201): an optional sign followed by at least one digit,
failing on any other character and on values outside the `i32` range. -/
def rust_parse_i32 (s : String) : Option ℤ :=
  match parseSign s.toList with
  | (neg, l) =>
    if l.isEmpty || !(l.all Char.isDigit) then none
    else
      let n : ℤ := parseDigits l
      let v := if neg then -n else n
      if v < -(2 ^ 31) || 2 ^ 31 ≤ v then none else some v

/-- The loop configuration: the optional target duration in total
milliseconds (`None` means sleep forever) and the `--no-interrupt` flag. -/
structure Config where
  target : Option ℕ
  no_interrupt : Bool

/-- The observable messages the main loop emits: `output.print` of the
"Ignoring termination signal." and "Caught termination signal -
interrupting sleep." lines, the `output.print_verbose` progress line (with
the `since_start` value it reports), and the final "Woke up after" line
(with the final elapsed value it reports). -/
inductive Event where
  | ignoring
  | interrupted
  | stillDreaming (ms : ℕ)
  | wokeUp (ms : ℕ)
deriving DecidableEq, Repr

/-- Outcome of one loop iteration: `exit` breaks out of the loop having
emitted `events`; `next` finishes the iteration by sleeping `slice`
milliseconds with the latch left at `latch`. -/
inductive CycleOut where
  | exit (events : List Event)
  | next (slice : ℕ) (latch : Bool) (events : List Event)
deriving DecidableEq, Repr

/-- The duration-check and sleep part of one loop iteration, src/main.rs
lines 266-287: exit when the target is reached, otherwise sleep the 100 ms
quantum, clamped to `T - since_start` when that would overshoot a finite
target; with no target always sleep the quantum.  The verbose progress
message is emitted after the sleep.  `evs` are the events already emitted
earlier in this iteration; `latch` is the current latch value. -/
def cycleDuration (cfg : Config) (since_start : ℕ) (evs : List Event) (latch : Bool) : CycleOut :=
  match cfg.target with
  | some T =>
    if since_start ≥ T then .exit evs
    else if since_start + 100 > T then
      if T > since_start then .next (T - since_start) latch (evs ++ [Event.stillDreaming since_start])
      else .exit evs
    else .next 100 latch (evs ++ [Event.stillDreaming since_start])
  | none => .next 100 latch (evs ++ [Event.stillDreaming since_start])

/-- One full loop iteration, src/main.rs lines 253-288, starting from the
latch check: if the latch reads interrupted then either emit the ignoring
message, store `running` back into the latch and continue this same
duration logic of the same iteration (`--no-interrupt` set), or emit the interrupted
message and break (`--no-interrupt` unset). -/
def cycle (cfg : Config) (since_start : ℕ) (latch : Bool) : CycleOut :=
  if !latch then
    if cfg.no_interrupt then cycleDuration cfg since_start [Event.ignoring] true
    else .exit [Event.interrupted]
  else cycleDuration cfg since_start [] latch

/-- The whole main loop as a fuel-indexed run.  `sig k = true` means a
termination signal was delivered (storing `false` into the latch) since
the latch read of the previous iteration, so iteration `k` reads the latch as
interrupted.  Time is idealised: sleeping `slice` milliseconds advances
the elapsed clock by exactly `slice`.  Returns the final elapsed time
together with all emitted events (ending with the unconditional "Woke up
after" message of src/main.rs lines 290-293), or `none` if `fuel`
iterations did not suffice. -/
def loopRun (cfg : Config) (sig : ℕ → Bool) : ℕ → ℕ → ℕ → Bool → Option (ℕ × List Event)
  | 0, _, _, _ => none
  | fuel + 1, k, elapsed, latch =>
    match cycle cfg elapsed (latch && !(sig k)) with
    | .exit evs => some (elapsed, evs ++ [Event.wokeUp elapsed])
    | .next slice latch2 evs =>
      (loopRun cfg sig fuel (k + 1) (elapsed + slice) latch2).map
        fun r => (r.1, evs ++ r.2)

/-- The command-line inputs reaching `run` that matter to the claims: the
optional positional duration text, the text handed to `--exit-code`
(the declared clap default is the text "0", so it is present even when the
flag is not given), and the `--daemon` / `--no-interrupt` flags. -/
structure CliArgs where
  duration : Option String
  exit_code_arg : Option String
  daemon : Bool
  no_interrupt : Bool

/-- The duration-configuration step, src/main.rs lines 177-185: absent
text means sleep forever; otherwise the text is parsed as an `f64`
(failure becoming `DurationParseError`) and fed to `duration_from_float`. -/
def sleeping_duration_of (args : CliArgs) : Except LucidError (Option Duration) :=
  match args.duration with
  | none => .ok none
  | some t =>
    match rust_parse_f64 t with
    | none => .error LucidError.DurationParseError
    | some x => (duration_from_float x).map some

/-- The exit-code configuration, src/main.rs lines 199-202: parse the
`--exit-code` text as an `i32`, silently falling back to `0` when parsing
fails or the value is absent. -/
def exit_code_of (args : CliArgs) : ℤ :=
  (args.exit_code_arg.bind rust_parse_i32).getD 0

/-- Outcome of `run` (src/main.rs lines 107-296): a configuration error
returned as `Err`, the panic raised by the `.expect` on signal-handler
registration failure, or normal completion with the configured exit code
and the elapsed time and events of the loop.  `fuelOut` means the loop
was still running when the fuel of the model ran out. -/
inductive RunResult where
  | configErr (e : LucidError)
  | panicked (msg : String)
  | completed (code : ℤ) (finalElapsed : ℕ) (events : List Event)
  | fuelOut
deriving DecidableEq, Repr

/-- `run` from src/main.rs, with the external collaborators modelled by
their outcomes: `daemonize_ok` is whether `nix::unistd::daemon` succeeds
(consulted only when `--daemon` is set), `handler_ok` whether
`ctrlc::set_handler` succeeds, and `sig` the signal delivery schedule.
The order of the steps follows the source: duration parsing, then
daemonization, then signal-handler registration, then the loop. -/
def run_model (args : CliArgs) (daemonize_ok handler_ok : Bool) (sig : ℕ → Bool)
    (fuel : ℕ) : RunResult :=
  match sleeping_duration_of args with
  | .error e => .configErr e
  | .ok target =>
    if args.daemon && !daemonize_ok then .configErr LucidError.FailedToDaemonize
    else if !handler_ok then .panicked "Error while setting up signal handler."
    else
      match loopRun ⟨target.map Duration.total_millis, args.no_interrupt⟩ sig fuel 0 0 true with
      | none => .fuelOut
      | some r => .completed (exit_code_of args) r.1 r.2

/-- Observable process outcome: a process exit with its code (and, for the
error path, the one-line message printed on stderr), a panic (which the
Rust runtime turns into process exit code 101), or divergence (the model
ran out of fuel, corresponding to a still-sleeping process). -/
inductive ProcOutcome where
  | exited (code : ℤ) (errLine : Option String)
  | panicked (msg : String)
  | diverged
deriving DecidableEq, Repr

/-- `main` from src/main.rs lines 298-309: an `Err` from `run` is printed
as a one-line `Error: ...` message on stderr and the process exits with
the fixed code 1; on `Ok` the process exits with the configured code. -/
def main_model (args : CliArgs) (daemonize_ok handler_ok : Bool) (sig : ℕ → Bool)
    (fuel : ℕ) : ProcOutcome :=
  match run_model args daemonize_ok handler_ok sig fuel with
  | .configErr e => .exited 1 (some ("Error: " ++ e.message))
  | .panicked msg => .panicked msg
  | .completed code _ _ => .exited code none
  | .fuelOut => .diverged

attribute [local semireducible] Rat.add Rat.sub Rat.mul Rat.inv Rat.ofScientific


instance instDecEqExcept {ε α : Type} [DecidableEq ε] [DecidableEq α] :
    DecidableEq (Except ε α) := fun a b =>
  match a, b with
  | .ok x, .ok y => if h : x = y then isTrue (by rw [h]) else isFalse (by simp [h])
  | .error x, .error y => if h : x = y then isTrue (by rw [h]) else isFalse (by simp [h])
  | .ok _, .error _ => isFalse (by simp)
  | .error _, .ok _ => isFalse (by simp)

theorem total_millis_from_millis (M : ℕ) :
    Duration.total_millis (Duration.from_millis M) = M := by
  show M / 1000 * 1000 + M % 1000 * 1000000 / 1000000 = M
  rw [Nat.mul_div_cancel _ (by norm_num : 0 < 1000000)]
  omega

theorem roundAway_of_nonneg (q : ℚ) (h : 0 ≤ q) : roundAway q = ⌊q + 1/2⌋ := by
  simp [roundAway, not_lt.mpr h]

theorem roundAway_nonneg (q : ℚ) (h : 0 ≤ q) : 0 ≤ roundAway q := by
  rw [roundAway_of_nonneg q h]
  exact Int.floor_nonneg.mpr (by linarith)

theorem roundAway_le (q : ℚ) (h0 : 0 ≤ q) (h1 : q < 1000) : roundAway q ≤ 1000 := by
  rw [roundAway_of_nonneg q h0]
  have : ⌊q + 1/2⌋ < 1001 := Int.floor_lt.mpr (by push_cast; linarith)
  omega

theorem roundAway_natCast (n : ℕ) : roundAway (n : ℚ) = n := by
  rw [roundAway_of_nonneg _ (by positivity)]
  rw [add_comm, Int.floor_add_nat]
  simp [Int.floor_eq_zero_iff, Set.mem_Ico]
  norm_num

theorem duration_from_float_finite (q : ℚ) (h0 : 0 ≤ q) (hlt : ⌊q⌋ < 2^64) :
    duration_from_float (F64.finite q) =
      .ok (Duration.from_millis
        ((⌊q⌋.toNat * 1000 + (roundAway ((q - ⌊q⌋) * 1000)).toNat) % 2^64)) := by
  have hfl0 : (0:ℤ) ≤ ⌊q⌋ := Int.floor_nonneg.mpr h0
  have hfloor_le : (⌊q⌋ : ℚ) ≤ q := Int.floor_le q
  have hlt_floor : q < ⌊q⌋ + 1 := Int.lt_floor_add_one q
  have harg0 : (0:ℚ) ≤ (q - ⌊q⌋) * 1000 := by nlinarith
  have harg1 : (q - ⌊q⌋) * 1000 < 1000 := by nlinarith
  have hr0 : 0 ≤ roundAway ((q - ⌊q⌋) * 1000) := roundAway_nonneg _ harg0
  have hr1 : roundAway ((q - ⌊q⌋) * 1000) ≤ 1000 := roundAway_le _ harg0 harg1
  have hlts : F64.lt (F64.finite q) (F64.finite 0) = false := by
    simp [F64.lt]
    exact h0
  have e2 : F64.toU64 (F64.finite (⌊q⌋:ℚ)) = ⌊q⌋.toNat := by
    simp only [F64.toU64, Int.floor_intCast]
    rw [min_eq_left (by omega), max_eq_right hfl0]
  have hcast : ((⌊q⌋.toNat : ℕ) : ℚ) = (⌊q⌋ : ℚ) := by
    exact_mod_cast Int.toNat_of_nonneg hfl0
  have e7 : F64.toU64 (F64.finite ((roundAway ((q - ⌊q⌋) * 1000) : ℤ) : ℚ)) =
      (roundAway ((q - ⌊q⌋) * 1000)).toNat := by
    simp only [F64.toU64, Int.floor_intCast]
    rw [min_eq_left (by omega), max_eq_right hr0]
  simp only [duration_from_float, hlts, Bool.false_eq_true, if_false]
  simp only [F64.floor, e2, F64.ofNat, hcast, F64.sub, F64.mul, F64.round, e7]

theorem reparse_millis (M : ℕ) (hM : M < 2^64) :
    duration_from_float (F64.finite (duration_str_val (Duration.from_millis M))) =
      .ok (Duration.from_millis M) := by
  have hq : duration_str_val (Duration.from_millis M) = (M / 1000 : ℕ) + ((M % 1000 : ℕ) : ℚ) / 1000 := by
    show ((M / 1000 : ℕ) : ℚ) + ((M % 1000 * 1000000 / 1000000 : ℕ) : ℚ) / 1000 = _
    rw [Nat.mul_div_cancel _ (by norm_num : 0 < 1000000)]
  have hm : (M % 1000 : ℕ) < 1000 := Nat.mod_lt _ (by norm_num)
  have hfr0 : (0:ℚ) ≤ ((M % 1000 : ℕ) : ℚ) / 1000 := by positivity
  have hfr1 : ((M % 1000 : ℕ) : ℚ) / 1000 < 1 := by
    rw [div_lt_one (by norm_num)]
    exact_mod_cast hm
  have hfloor : ⌊duration_str_val (Duration.from_millis M)⌋ = (M / 1000 : ℕ) := by
    rw [hq, add_comm, Int.floor_add_nat]
    rw [Int.floor_eq_zero_iff.mpr ⟨hfr0, hfr1⟩]
    simp
  have h0 : (0:ℚ) ≤ duration_str_val (Duration.from_millis M) := by
    rw [hq]; positivity
  have hlt : ⌊duration_str_val (Duration.from_millis M)⌋ < 2^64 := by
    rw [hfloor]
    exact_mod_cast lt_of_le_of_lt (Nat.div_le_self M 1000) hM
  rw [duration_from_float_finite _ h0 hlt]
  congr 1
  rw [hfloor]
  have hfrac : duration_str_val (Duration.from_millis M) - (((M / 1000 : ℕ) : ℤ) : ℚ) = ((M % 1000 : ℕ) : ℚ) / 1000 := by
    rw [hq, Int.cast_natCast]
    ring
  rw [hfrac]
  rw [div_mul_cancel₀ _ (by norm_num : (1000:ℚ) ≠ 0)]
  rw [roundAway_natCast]
  congr 1
  simp only [Int.toNat_natCast]
  have : M / 1000 * 1000 + M % 1000 = M := by omega
  rw [this, Nat.mod_eq_of_lt hM]



theorem duration_from_float_ok_shape (x : F64) (d : Duration)
    (h : duration_from_float x = .ok d) :
    ∃ M, M < 2^64 ∧ d = Duration.from_millis M := by
  unfold duration_from_float at h
  by_cases hc : F64.lt x (F64.finite 0) = true
  · rw [if_pos hc] at h
    exact absurd h (by simp)
  · rw [if_neg hc] at h
    simp only [Except.ok.injEq] at h
    exact ⟨_, Nat.mod_lt _ (by positivity), h.symm⟩

/-- C4 counterexample: at the input `2^63` (a number exactly representable
as an `f64`, at which the whole floating-point computation is exact) the
`u64` expression `secs * 1000` wraps around, so the produced millisecond
count is `0`, not the `2^63 * 1000` demanded by the formula of the claim. -/
theorem claim_C4_counterexample :
    duration_from_float (F64.finite (2^63)) = .ok (Duration.from_millis 0) ∧
    (Duration.total_millis (Duration.from_millis 0) : ℤ) ≠ spec_millis (2^63) :=
  ⟨by decide, by decide⟩

/-- C4 (amended): for every non-negative input whose floor satisfies
`⌊s⌋ * 1000 + 1000 < 2^64` (so the `u64` computation cannot wrap), the
total millisecond count of the parsed duration is exactly
`⌊s⌋ * 1000 + roundHalfAwayFromZero ((s - ⌊s⌋) * 1000)`; in particular
12.345 s ↦ 12345 ms, 12.3456 s ↦ 12346 ms, 0.001 s ↦ 1 ms,
1.1 s ↦ 1100 ms and 14.0001 s ↦ 14000 ms. -/
theorem claim_C4 :
    (∀ q : ℚ, 0 ≤ q → ⌊q⌋ * 1000 + 1000 < 2^64 →
      duration_from_float (F64.finite q) = .ok (Duration.from_millis (spec_millis q).toNat) ∧
      (Duration.total_millis (Duration.from_millis (spec_millis q).toNat) : ℤ) = spec_millis q) ∧
    duration_from_float (F64.finite (12345/1000)) = .ok (Duration.from_millis 12345) ∧
    duration_from_float (F64.finite (123456/10000)) = .ok (Duration.from_millis 12346) ∧
    duration_from_float (F64.finite (1/1000)) = .ok (Duration.from_millis 1) ∧
    duration_from_float (F64.finite (11/10)) = .ok (Duration.from_millis 1100) ∧
    duration_from_float (F64.finite (140001/10000)) = .ok (Duration.from_millis 14000) := by
  refine ⟨?_, by decide, by decide, by decide, by decide, by decide⟩
  intro q h0 hbound
  have h64 : (2:ℤ)^64 = 18446744073709551616 := by norm_num
  have hfl0 : (0:ℤ) ≤ ⌊q⌋ := Int.floor_nonneg.mpr h0
  have hlt : ⌊q⌋ < 2^64 := by
    rw [h64] at hbound ⊢
    nlinarith
  have hfloor_le : (⌊q⌋ : ℚ) ≤ q := Int.floor_le q
  have hlt_floor : q < ⌊q⌋ + 1 := Int.lt_floor_add_one q
  have harg0 : (0:ℚ) ≤ (q - ⌊q⌋) * 1000 := by nlinarith
  have harg1 : (q - ⌊q⌋) * 1000 < 1000 := by nlinarith
  have hr0 : 0 ≤ roundAway ((q - ⌊q⌋) * 1000) := roundAway_nonneg _ harg0
  have hr1 : roundAway ((q - ⌊q⌋) * 1000) ≤ 1000 := roundAway_le _ harg0 harg1
  have hspec : spec_millis q = ⌊q⌋ * 1000 + roundAway ((q - ⌊q⌋) * 1000) := rfl
  rw [duration_from_float_finite q h0 hlt]
  constructor
  · congr 2
    rw [hspec]
    have h64n : (2:ℕ)^64 = 18446744073709551616 := by norm_num
    rw [h64n]
    rw [h64] at hbound
    omega
  · rw [total_millis_from_millis, hspec]
    rw [h64] at hbound
    omega

theorem claim_C4_witness :
    duration_from_float (F64.finite (12345/1000)) =
      .ok (Duration.from_millis (spec_millis (12345/1000)).toNat) ∧
    (Duration.total_millis (Duration.from_millis (spec_millis (12345/1000)).toNat) : ℤ) =
      spec_millis (12345/1000) :=
  claim_C4.1 (12345/1000) (by norm_num) (by decide)

/-- C5 counterexample: the text `-0.0` parses to the IEEE negative zero,
which is not `< 0.0` under IEEE comparison, so `duration_from_float`
accepts it and returns the zero duration instead of failing with
`DurationNegative`. -/
theorem claim_C5_counterexample :
    rust_parse_f64 "-0.0" = some F64.negZero ∧
    duration_from_float F64.negZero = .ok (Duration.from_millis 0) :=
  ⟨by decide, by decide⟩

/-- C5 (amended): every input strictly less than zero (including `-inf`)
fails with `DurationNegative`; `-0.0`, however, compares equal to zero
under IEEE `<` and is accepted, producing the zero duration; and no
duration the parser produces is ever negative. -/
theorem claim_C5 :
    (∀ q : ℚ, q < 0 → duration_from_float (F64.finite q) = .error LucidError.DurationNegative) ∧
    duration_from_float F64.negInf = .error LucidError.DurationNegative ∧
    duration_from_float F64.negZero = .ok (Duration.from_millis 0) ∧
    (∀ x d, duration_from_float x = .ok d → 0 ≤ (Duration.total_millis d : ℤ)) := by
  refine ⟨?_, by decide, by decide, ?_⟩
  · intro q hq
    have hlts : F64.lt (F64.finite q) (F64.finite 0) = true := by
      simp [F64.lt]
      exact hq
    simp [duration_from_float, hlts]
  · intro x d _
    exact Int.natCast_nonneg _

theorem claim_C5_witness :
    duration_from_float (F64.finite (-(6/5))) = .error LucidError.DurationNegative :=
  claim_C5.1 (-(6/5)) (by norm_num)

/-- C6 counterexample: the texts `inf` and `nan` are accepted by the Rust
`f64` parser, so the configuration does not fail with
`DurationParseError`: `inf` saturates/wraps to a huge duration and `nan`
yields the zero duration. -/
theorem claim_C6_counterexample :
    rust_parse_f64 "inf" = some F64.inf ∧
    sleeping_duration_of ⟨some "inf", some "0", false, false⟩ =
      .ok (some (Duration.from_millis 18446744073709550615)) ∧
    rust_parse_f64 "nan" = some F64.nan ∧
    sleeping_duration_of ⟨some "nan", some "0", false, false⟩ =
      .ok (some (Duration.from_millis 0)) :=
  ⟨by decide, by decide, by decide, by decide⟩

/-- C6 (amended): duration text that the `f64` grammar rejects (genuinely
non-numeric text) makes configuration fail with `DurationParseError` and
the process exit with the fixed failure code 1; but text denoting
infinity or NaN parses successfully as an `f64` and is accepted. -/
theorem claim_C6 :
    (∀ args s, args.duration = some s → rust_parse_f64 s = none →
      sleeping_duration_of args = .error LucidError.DurationParseError) ∧
    (∀ args s daemonize_ok handler_ok sig fuel,
      args.duration = some s → rust_parse_f64 s = none →
      main_model args daemonize_ok handler_ok sig fuel =
        .exited 1 (some ("Error: " ++ LucidError.message LucidError.DurationParseError))) ∧
    rust_parse_f64 "abc" = none ∧
    rust_parse_f64 "1.2.3" = none ∧
    rust_parse_f64 "" = none := by
  have h1 : ∀ args s, args.duration = some s → rust_parse_f64 s = none →
      sleeping_duration_of args = .error LucidError.DurationParseError := by
    intro args s hd hp
    simp [sleeping_duration_of, hd, hp]
  refine ⟨h1, ?_, by decide, by decide, by decide⟩
  intro args s daemonize_ok handler_ok sig fuel hd hp
  simp [main_model, run_model, h1 args s hd hp]

theorem claim_C6_witness :
    sleeping_duration_of ⟨some "abc", some "0", false, false⟩ =
      .error LucidError.DurationParseError :=
  claim_C6.1 ⟨some "abc", some "0", false, false⟩ "abc" rfl (by decide)

/-- C7 counterexample: at the input `10^19` (exactly representable as an
`f64`) the accepted value leads to `secs * 1000 = 10^22 ≥ 2^64`, so the
`u64` computation `secs * 1000 + millisecs` does overflow, and the stored
millisecond count is the wrapped value, not `10^19 * 1000`. -/
theorem claim_C7_counterexample :
    duration_from_float (F64.finite (10^19)) =
      .ok (Duration.from_millis ((10^19 * 1000) % 2^64)) ∧
    2^64 ≤ 10^19 * 1000 ∧
    Duration.total_millis (Duration.from_millis ((10^19 * 1000) % 2^64)) ≠ 10^19 * 1000 :=
  ⟨by decide, by decide, by decide⟩

/-- C7 (amended): there is indeed no upper-bound check — every
non-negative input produces `Ok` of some duration — but the millisecond
computation is `u64` arithmetic, so for huge inputs the stored count is
only the true count reduced modulo `2^64`. -/
theorem claim_C7 : ∀ q : ℚ, 0 ≤ q →
    ∃ d, duration_from_float (F64.finite q) = .ok d ∧ Duration.total_millis d < 2^64 := by
  intro q h0
  have hlts : F64.lt (F64.finite q) (F64.finite 0) = false := by
    simp [F64.lt]
    exact h0
  simp only [duration_from_float, hlts, Bool.false_eq_true, if_false]
  refine ⟨_, rfl, ?_⟩
  rw [total_millis_from_millis]
  exact Nat.mod_lt _ (by positivity)

theorem claim_C7_witness :
    ∃ d, duration_from_float (F64.finite 7) = .ok d ∧ Duration.total_millis d < 2^64 :=
  claim_C7 7 (by norm_num)

/-- C9: round-trip — for every duration the parser produces, re-parsing
the numeric seconds value of its string form (whole seconds, a dot, the
zero-padded three-digit millisecond part) reproduces a duration with the
same total millisecond count; the concrete conjuncts pin down the string
form itself and its parsed value at an example. -/
theorem claim_C9 :
    (∀ x d, duration_from_float x = .ok d →
      duration_from_float (F64.finite (duration_str_val d)) =
        .ok (Duration.from_millis (Duration.total_millis d)) ∧
      Duration.total_millis (Duration.from_millis (Duration.total_millis d)) =
        Duration.total_millis d) ∧
    duration_as_str (Duration.from_millis 12345) = "12.345s" ∧
    rust_parse_f64 "12.345" = some (F64.finite (duration_str_val (Duration.from_millis 12345))) := by
  refine ⟨?_, by decide, by decide⟩
  intro x d h
  obtain ⟨M, hM, rfl⟩ := duration_from_float_ok_shape x d h
  rw [total_millis_from_millis]
  exact ⟨reparse_millis M hM, total_millis_from_millis M⟩

theorem claim_C9_witness :
    duration_from_float (F64.finite (duration_str_val (Duration.from_millis 1100))) =
      .ok (Duration.from_millis (Duration.total_millis (Duration.from_millis 1100))) ∧
    Duration.total_millis (Duration.from_millis (Duration.total_millis (Duration.from_millis 1100))) =
      Duration.total_millis (Duration.from_millis 1100) :=
  claim_C9.1 (F64.finite (11/10)) (Duration.from_millis 1100) (by decide)


theorem loopRun_interrupt (T : ℕ) :
    ∀ (n fuel k e : ℕ) (sig : ℕ → Bool),
      sig (k + n) = true → (∀ i, i < n → sig (k + i) = false) →
      e + 100 * n < T → n < fuel →
      loopRun ⟨some T, false⟩ sig fuel k e true =
        some (e + 100 * n,
          (List.range n).map (fun i => Event.stillDreaming (e + 100 * i)) ++
            [Event.interrupted, Event.wokeUp (e + 100 * n)]) := by
  intro n
  induction n with
  | zero =>
    intro fuel k e sig hsig _ he hf
    cases fuel with
    | zero => omega
    | succ fuel =>
      have hs : sig k = true := by simpa using hsig
      simp [loopRun, hs, cycle]
  | succ n ih =>
    intro fuel k e sig hsig hprev he hf
    cases fuel with
    | zero => omega
    | succ fuel =>
      have hs : sig k = false := by simpa using hprev 0 (Nat.succ_pos n)
      have h1 : ¬ (e ≥ T) := by omega
      have h2 : ¬ (e + 100 > T) := by omega
      have hcyc : cycle ⟨some T, false⟩ e true = .next 100 true [Event.stillDreaming e] := by
        simp [cycle, cycleDuration, h1, h2]
      have hrec := ih fuel (k + 1) (e + 100) sig
        (by have h : k + 1 + n = k + (n + 1) := by omega
            rw [h]; exact hsig)
        (by intro i hi
            have h : k + 1 + i = k + (i + 1) := by omega
            rw [h]; exact hprev (i + 1) (by omega))
        (by omega) (by omega)
      simp only [loopRun, hs, Bool.not_false, Bool.and_true, hcyc, hrec, Option.map_some]
      refine congrArg some ?_
      have harith : e + 100 + 100 * n = e + 100 * (n + 1) := by ring
      rw [harith]
      refine congrArg _ ?_
      rw [List.range_succ_eq_map, List.map_cons, List.map_map]
      simp only [Nat.mul_zero, Nat.add_zero, List.cons_append, List.nil_append]
      refine congrArg _ ?_
      refine congrArg (· ++ _) ?_
      refine List.map_congr_left ?_
      intro i _
      simp only [Function.comp_apply]
      refine congrArg _ ?_
      omega

theorem loopRun_quiet (T : ℕ) (no_int : Bool) :
    ∀ (fuel k e : ℕ) (sig : ℕ → Bool),
      (∀ i, k ≤ i → sig i = false) → e ≤ T → T + 100 ≤ e + 100 * fuel →
      ∃ evs, loopRun ⟨some T, no_int⟩ sig fuel k e true = some (T, evs) ∧
        Event.interrupted ∉ evs ∧ Event.ignoring ∉ evs := by
  intro fuel
  induction fuel with
  | zero => intro k e sig _ he hf; omega
  | succ fuel ih =>
    intro k e sig hsig he hf
    have hs : sig k = false := hsig k le_rfl
    by_cases hT : e ≥ T
    · have heT : e = T := by omega
      subst heT
      refine ⟨[Event.wokeUp e], ?_, by simp, by simp⟩
      simp [loopRun, hs, cycle, cycleDuration]
    · push_neg at hT
      by_cases hc : e + 100 > T
      · have hcyc : cycle ⟨some T, no_int⟩ e true = .next (T - e) true [Event.stillDreaming e] := by
          simp [cycle, cycleDuration, hc, hT, not_le.mpr hT]
        obtain ⟨evs, hevs, hni, hng⟩ := ih (k + 1) (e + (T - e)) sig
          (fun i hi => hsig i (by omega)) (by omega) (by omega)
        refine ⟨Event.stillDreaming e :: evs, ?_, by simp [hni], by simp [hng]⟩
        simp only [loopRun, hs, Bool.not_false, Bool.and_true, hcyc, hevs]
        rfl
      · push_neg at hc
        have hcyc : cycle ⟨some T, no_int⟩ e true = .next 100 true [Event.stillDreaming e] := by
          simp [cycle, cycleDuration, not_le.mpr hT]
          omega
        obtain ⟨evs, hevs, hni, hng⟩ := ih (k + 1) (e + 100) sig
          (fun i hi => hsig i (by omega)) (by omega) (by omega)
        refine ⟨Event.stillDreaming e :: evs, ?_, by simp [hni], by simp [hng]⟩
        simp only [loopRun, hs, Bool.not_false, Bool.and_true, hcyc, hevs]
        rfl

theorem loopRun_one_signal (T : ℕ) :
    ∀ (n fuel k e : ℕ) (sig : ℕ → Bool),
      sig (k + n) = true → (∀ i, i < n → sig (k + i) = false) →
      (∀ i, n < i → sig (k + i) = false) →
      e + 100 * n < T → T + 100 ≤ e + 100 * fuel →
      ∃ evs, loopRun ⟨some T, true⟩ sig fuel k e true = some (T, evs) ∧
        Event.ignoring ∈ evs ∧ Event.interrupted ∉ evs := by
  intro n
  induction n with
  | zero =>
    intro fuel k e sig hsig _ hpost he hf
    cases fuel with
    | zero => omega
    | succ fuel =>
      have hs : sig k = true := by simpa using hsig
      have hT : e < T := by omega
      have hsig' : ∀ i, k + 1 ≤ i → sig i = false := by
        intro i hi
        have h := hpost (i - k) (by omega)
        rwa [show k + (i - k) = i from by omega] at h
      by_cases hc : e + 100 > T
      · have hcyc : cycle ⟨some T, true⟩ e false =
            .next (T - e) true [Event.ignoring, Event.stillDreaming e] := by
          simp [cycle, cycleDuration, hc, hT, not_le.mpr hT]
        obtain ⟨evs, hevs, hni, hng⟩ := loopRun_quiet T true fuel (k + 1) (e + (T - e)) sig
          hsig' (by omega) (by omega)
        refine ⟨Event.ignoring :: Event.stillDreaming e :: evs, ?_, by simp, by simp [hni]⟩
        simp only [loopRun, hs, Bool.not_true, Bool.and_false, hcyc, hevs]
        rfl
      · push_neg at hc
        have hcyc : cycle ⟨some T, true⟩ e false =
            .next 100 true [Event.ignoring, Event.stillDreaming e] := by
          simp [cycle, cycleDuration, not_le.mpr hT]
          omega
        obtain ⟨evs, hevs, hni, hng⟩ := loopRun_quiet T true fuel (k + 1) (e + 100) sig
          hsig' (by omega) (by omega)
        refine ⟨Event.ignoring :: Event.stillDreaming e :: evs, ?_, by simp, by simp [hni]⟩
        simp only [loopRun, hs, Bool.not_true, Bool.and_false, hcyc, hevs]
        rfl
  | succ n ih =>
    intro fuel k e sig hsig hprev hpost he hf
    cases fuel with
    | zero => omega
    | succ fuel =>
      have hs : sig k = false := by simpa using hprev 0 (Nat.succ_pos n)
      have h1 : ¬ (e ≥ T) := by omega
      have h2 : ¬ (e + 100 > T) := by omega
      have hcyc : cycle ⟨some T, true⟩ e true = .next 100 true [Event.stillDreaming e] := by
        simp [cycle, cycleDuration, h1, h2]
      obtain ⟨evs, hevs, hig, hni⟩ := ih fuel (k + 1) (e + 100) sig
        (by have h : k + 1 + n = k + (n + 1) := by omega
            rw [h]; exact hsig)
        (by intro i hi
            have h : k + 1 + i = k + (i + 1) := by omega
            rw [h]; exact hprev (i + 1) (by omega))
        (by intro i hi
            have h : k + 1 + i = k + (i + 1) := by omega
            rw [h]; exact hpost (i + 1) (by omega))
        (by omega) (by omega)
      refine ⟨Event.stillDreaming e :: evs, ?_, by simp [hig], by simp [hni]⟩
      simp only [loopRun, hs, Bool.not_false, Bool.and_true, hcyc, hevs]
      rfl



/-- C1: whenever a cycle reads the latch as interrupted with no-interrupt
mode off, it emits the interrupted message and exits at once, with no
duration check and no sleep (first conjunct, at the level of one cycle);
consequently, a signal observed at a cycle whose elapsed time is below a
finite target `T` makes the loop exit at that elapsed time — strictly
before `T` — with the interrupted message followed by the final message
(second conjunct, at the level of the whole run). -/
theorem claim_C1 :
    (∀ cfg e, cfg.no_interrupt = false → cycle cfg e false = .exit [Event.interrupted]) ∧
    (∀ T n fuel (sig : ℕ → Bool),
      sig n = true → (∀ k, k < n → sig k = false) → 100 * n < T → n < fuel →
      loopRun ⟨some T, false⟩ sig fuel 0 0 true =
        some (100 * n,
          (List.range n).map (fun i => Event.stillDreaming (100 * i)) ++
            [Event.interrupted, Event.wokeUp (100 * n)])) := by
  constructor
  · intro cfg e h
    simp [cycle, h]
  · intro T n fuel sig hs hprev hT hf
    have h := loopRun_interrupt T n fuel 0 0 sig (by simpa using hs) (by simpa using hprev)
      (by omega) hf
    simpa using h

theorem claim_C1_witness :
    loopRun ⟨some 250, false⟩ (fun k => decide (k = 1)) 3 0 0 true =
      some (100 * 1,
        (List.range 1).map (fun i => Event.stillDreaming (100 * i)) ++
          [Event.interrupted, Event.wokeUp (100 * 1)]) :=
  claim_C1.2 250 1 3 (fun k => decide (k = 1)) (by decide)
    (fun k hk => by
      have h : k = 0 := by omega
      rw [h]
      decide)
    (by omega) (by omega)

/-- C2: whenever a cycle reads the latch as interrupted with no-interrupt
mode on, it emits the ignoring message, stores running (`true`) back into
the latch once, and continues the duration check and sleep logic of this
same iteration (first conjunct: the cycle equals the duration logic run with
the ignoring message emitted and the latch reset); with exactly one
interrupt delivered mid-run and a finite target `T`, the loop still runs
to completion, finishing at elapsed time `T`, having emitted the ignoring
message and never the interrupted message (second conjunct). -/
theorem claim_C2 :
    (∀ cfg e, cfg.no_interrupt = true →
      cycle cfg e false = cycleDuration cfg e [Event.ignoring] true) ∧
    (∀ T n fuel, 100 * n < T → T + 100 ≤ 100 * fuel →
      ∃ evs,
        loopRun ⟨some T, true⟩ (fun i => decide (i = n)) fuel 0 0 true = some (T, evs) ∧
        Event.ignoring ∈ evs ∧ Event.interrupted ∉ evs) := by
  constructor
  · intro cfg e h
    simp [cycle, h]
  · intro T n fuel hT hf
    refine loopRun_one_signal T n fuel 0 0 (fun i => decide (i = n)) (by simp) ?_ ?_
      (by omega) (by omega)
    · intro i hi
      simp only [Nat.zero_add, decide_eq_false_iff_not]
      omega
    · intro i hi
      simp only [Nat.zero_add, decide_eq_false_iff_not]
      omega

theorem claim_C2_witness :
    ∃ evs,
      loopRun ⟨some 250, true⟩ (fun i => decide (i = 1)) 4 0 0 true = some (250, evs) ∧
      Event.ignoring ∈ evs ∧ Event.interrupted ∉ evs :=
  claim_C2.2 250 1 4 (by omega) (by omega)

/-- C3: the sleep-slice logic of a cycle that reaches it (elapsed below a
finite target): when `elapsed + 100` does not overshoot `T` the slice is
exactly the 100 ms quantum; when it would overshoot, the slice is clamped
to exactly `T - elapsed` (the remainder is then necessarily positive, the
leftover branch of the code for `remainder ≤ 0`, which exits without a sleep, being
covered by the third conjunct, which fires at the duration check); with no
target configured the slice is always the full quantum. -/
theorem claim_C3 :
    (∀ T e evs l ni, e + 100 ≤ T →
      cycleDuration ⟨some T, ni⟩ e evs l = .next 100 l (evs ++ [Event.stillDreaming e])) ∧
    (∀ T e evs l ni, e < T → T < e + 100 →
      cycleDuration ⟨some T, ni⟩ e evs l = .next (T - e) l (evs ++ [Event.stillDreaming e])) ∧
    (∀ T e evs l ni, T ≤ e → cycleDuration ⟨some T, ni⟩ e evs l = .exit evs) ∧
    (∀ e evs l ni, cycleDuration ⟨none, ni⟩ e evs l = .next 100 l (evs ++ [Event.stillDreaming e])) := by
  refine ⟨?_, ?_, ?_, ?_⟩
  · intro T e evs l ni h
    have h1 : ¬ (e ≥ T) := by omega
    have h2 : ¬ (e + 100 > T) := by omega
    simp [cycleDuration, h1, h2]
  · intro T e evs l ni h1 h2
    have h3 : ¬ (e ≥ T) := by omega
    simp [cycleDuration, h3, h2, h1]
  · intro T e evs l ni h
    simp [cycleDuration, h]
  · intro e evs l ni
    simp [cycleDuration]

theorem claim_C3_witness :
    cycleDuration ⟨some 1000, false⟩ 0 [] true = .next 100 true [Event.stillDreaming 0] ∧
    cycleDuration ⟨some 250, false⟩ 200 [] true = .next 50 true [Event.stillDreaming 200] ∧
    cycleDuration ⟨some 200, false⟩ 200 [] true = .exit [] ∧
    cycleDuration ⟨none, false⟩ 0 [] true = .next 100 true [Event.stillDreaming 0] :=
  ⟨claim_C3.1 1000 0 [] true false (by omega),
   claim_C3.2.1 250 200 [] true false (by omega) (by omega),
   claim_C3.2.2.1 200 200 [] true false (by omega),
   claim_C3.2.2.2 0 [] true false⟩

theorem run_graceful (args : CliArgs) (daemonize_ok : Bool) (sig : ℕ → Bool) (fuel : ℕ)
    (D : Duration) (hd : args.daemon = false)
    (hdur : sleeping_duration_of args = .ok (some D))
    (hsig : ∀ i, sig i = false)
    (hf : Duration.total_millis D + 100 ≤ 100 * fuel) :
    main_model args daemonize_ok true sig fuel = .exited (exit_code_of args) none := by
  obtain ⟨evs, hevs, _, _⟩ := loopRun_quiet (Duration.total_millis D) args.no_interrupt fuel 0 0
    sig (fun i _ => hsig i) (Nat.zero_le _) (by omega)
  simp [main_model, run_model, hdur, hd, hevs]

/-- C8 counterexample: with a valid configuration but a failing
signal-handler registration, the process does not exit with code 1 — the
`.expect` call panics (the Rust runtime then aborts the process with
exit code 101). -/
theorem claim_C8_counterexample :
    main_model ⟨some "1.0", some "0", false, false⟩ true false (fun _ => false) 5 =
      .panicked "Error while setting up signal handler." := by
  decide

/-- C8 (amended): every configuration failure that `run` returns as an
`Err` — unparseable duration text, negative duration, failed
daemonization — exits with the fixed code 1 after printing a one-line
`Error: ...` message on stderr; a failed signal-handler registration,
however, panics instead of exiting with code 1; and on graceful
completion the process exits with the configured exit code and prints no
error line. -/
theorem claim_C8 :
    (∀ args daemonize_ok handler_ok sig fuel e, sleeping_duration_of args = .error e →
      main_model args daemonize_ok handler_ok sig fuel =
        .exited 1 (some ("Error: " ++ e.message))) ∧
    (∀ args handler_ok sig fuel t, sleeping_duration_of args = .ok t → args.daemon = true →
      main_model args false handler_ok sig fuel =
        .exited 1 (some ("Error: " ++ LucidError.message LucidError.FailedToDaemonize))) ∧
    (∀ args sig fuel t, sleeping_duration_of args = .ok t →
      main_model args true false sig fuel = .panicked "Error while setting up signal handler.") ∧
    (∀ args daemonize_ok sig fuel D, args.daemon = false →
      sleeping_duration_of args = .ok (some D) → (∀ i, sig i = false) →
      Duration.total_millis D + 100 ≤ 100 * fuel →
      main_model args daemonize_ok true sig fuel = .exited (exit_code_of args) none) := by
  refine ⟨?_, ?_, ?_, ?_⟩
  · intro args daemonize_ok handler_ok sig fuel e h
    simp [main_model, run_model, h]
  · intro args handler_ok sig fuel t h hdm
    simp [main_model, run_model, h, hdm]
  · intro args sig fuel t h
    simp [main_model, run_model, h]
  · intro args daemonize_ok sig fuel D hd hdur hsig hf
    exact run_graceful args daemonize_ok sig fuel D hd hdur hsig hf

theorem claim_C8_witness :
    main_model ⟨some "0.25", some "7", false, false⟩ true true (fun _ => false) 10 =
      .exited (exit_code_of ⟨some "0.25", some "7", false, false⟩) none :=
  claim_C8.2.2.2 ⟨some "0.25", some "7", false, false⟩ true (fun _ => false) 10
    (Duration.from_millis 250) rfl (by decide) (fun _ => rfl) (by decide)

/-- C10: an `--exit-code` value that does not parse as an `i32` is not a
configuration failure — the exit code silently falls back to 0 (first
conjunct), and a run that otherwise completes gracefully exits with
code 0 (second conjunct). -/
theorem claim_C10 :
    (∀ d s dm ni, rust_parse_i32 s = none → exit_code_of ⟨d, some s, dm, ni⟩ = 0) ∧
    (∀ dur s daemonize_ok (sig : ℕ → Bool) fuel D, rust_parse_i32 s = none →
      sleeping_duration_of ⟨dur, some s, false, false⟩ = .ok (some D) →
      (∀ i, sig i = false) → Duration.total_millis D + 100 ≤ 100 * fuel →
      main_model ⟨dur, some s, false, false⟩ daemonize_ok true sig fuel = .exited 0 none) := by
  have h1 : ∀ d s dm ni, rust_parse_i32 s = none → exit_code_of ⟨d, some s, dm, ni⟩ = 0 := by
    intro d s dm ni h
    simp [exit_code_of, h]
  refine ⟨h1, ?_⟩
  intro dur s daemonize_ok sig fuel D hps hdur hsig hf
  have h := run_graceful ⟨dur, some s, false, false⟩ daemonize_ok sig fuel D rfl hdur hsig hf
  rwa [h1 dur s false false hps] at h

theorem claim_C10_witness :
    main_model ⟨some "0.1", some "abc", false, false⟩ true true (fun _ => false) 3 =
      .exited 0 none :=
  claim_C10.2 (some "0.1") "abc" true (fun _ => false) 3 (Duration.from_millis 100)
    (by decide) (by decide) (fun _ => rfl) (by decide)

end Lucid
